import Mathlib

/-!
Verification of the mlflow-secrets-auth credential lifecycle engine against its
specification.  The repository ships the unit tests of the engine; the engine
itself (cache, retry helper, secret parser, host matcher, authenticators,
auto-refresh wrapper, provider base) is modelled here from the specification,
with the unit tests fixing the concrete behaviour at every point they exercise.

Time is modelled by a rational-valued monotonic clock; delays and TTLs are
rationals.  Fallible operations are modelled with `Except`; the injectable
randomness of the retry helper is an explicit perturbation sequence.
-/

namespace MlflowSecretsAuth

/-! ## TTL cache (spec 4.1, `mlflow_secrets_auth.cache.TTLCache`) -/

/-- Modelled from the spec: a cache entry pairs the stored value with its
absolute expiry instant on the monotonic clock. -/
structure TTLCacheEntry (α : Type) where
  value : α
  expiresAt : ℚ
deriving DecidableEq

/-- Modelled from the spec: the cache is a mapping from string keys to
entries; we represent it as an association list with unique keys kept by
`cacheSet`. -/
abbrev TTLCache (α : Type) : Type := List (String × TTLCacheEntry α)

/-- Modelled from the spec: `set(key, value, ttlSeconds)` stores the value,
overwriting any existing entry for the key; expiry is `now + ttl` on the
monotonic clock. -/
def cacheSet (c : TTLCache α) (k : String) (v : α) (ttl now : ℚ) : TTLCache α :=
  (k, ⟨v, now + ttl⟩) :: c.filter (fun e => e.1 != k)

/-- Modelled from the spec: `get(key)` returns the value if present and
`now < expiresAt`, else returns absent (`none`); it is total, so it never
raises. -/
def cacheGet (c : TTLCache α) (k : String) (now : ℚ) : Option α :=
  match c.find? (fun e => e.1 == k) with
  | some e => if now < e.2.expiresAt then some e.2.value else none
  | none => none

/-- Modelled from the spec: `delete(key)` removes the entry if present; no
error if absent. -/
def cacheDelete (c : TTLCache α) (k : String) : TTLCache α :=
  c.filter (fun e => e.1 != k)

theorem cacheGet_cacheSet_self (c : TTLCache α) (k : String) (v : α) (ttl now t : ℚ) :
    cacheGet (cacheSet c k v ttl now) k t =
      if t < now + ttl then some v else none := by
  simp [cacheGet, cacheSet, List.find?]

theorem cacheGet_cacheDelete_self (c : TTLCache α) (k : String) (t : ℚ) :
    cacheGet (cacheDelete c k) k t = none := by
  rw [cacheGet, cacheDelete]
  have h : (c.filter (fun e => e.1 != k)).find? (fun e => e.1 == k) = none := by
    rw [List.find?_eq_none]
    intro e he
    have := (List.mem_filter.mp he).2
    simpa using this
  rw [h]

/-- C4: immediately after `set(key, value, ttl)` with `ttl > 0`, `get(key)`
returns the value; it keeps doing so while the monotonic clock has advanced
less than `ttl` since the set, returns `none` once it has advanced at least
`ttl`, and a second `set` with the same key overwrites the stored value.
`get` is a total function, so it never raises. -/
theorem cache_set_get_ttl (c : TTLCache α) (k : String) (v v2 : α)
    (ttl t t2 : ℚ) (httl : 0 < ttl) :
    cacheGet (cacheSet c k v ttl t) k t = some v ∧
    (t2 - t < ttl → cacheGet (cacheSet c k v ttl t) k t2 = some v) ∧
    (ttl ≤ t2 - t → cacheGet (cacheSet c k v ttl t) k t2 = none) ∧
    cacheGet (cacheSet (cacheSet c k v ttl t) k v2 ttl t) k t = some v2 := by
  refine ⟨?_, ?_, ?_, ?_⟩
  · rw [cacheGet_cacheSet_self]
    simp [httl]
  · intro h
    rw [cacheGet_cacheSet_self]
    have : t2 < t + ttl := by linarith
    simp [this]
  · intro h
    rw [cacheGet_cacheSet_self]
    have : ¬ t2 < t + ttl := by linarith
    simp [this]
  · rw [cacheGet_cacheSet_self]
    simp [httl]

/-- Concrete instantiation of `cache_set_get_ttl`. -/
theorem cache_set_get_ttl_witness :
    cacheGet (cacheSet ([] : TTLCache String) "k" "v" 300 0) "k" 0 = some "v" ∧
    cacheGet (cacheSet ([] : TTLCache String) "k" "v" 300 0) "k" 200 = some "v" ∧
    cacheGet (cacheSet ([] : TTLCache String) "k" "v" 300 0) "k" 400 = none ∧
    cacheGet (cacheSet (cacheSet ([] : TTLCache String) "k" "v" 300 0) "k" "w" 300 0)
      "k" 0 = some "w" := by
  obtain ⟨h1, h2, h3, h4⟩ :=
    cache_set_get_ttl ([] : TTLCache String) "k" "v" "w" 300 0 200 (by norm_num)
  obtain ⟨_, _, h3', _⟩ :=
    cache_set_get_ttl ([] : TTLCache String) "k" "v" "w" 300 0 400 (by norm_num)
  exact ⟨h1, h2 (by norm_num), h3' (by norm_num), h4⟩

/-! ## Retry with jitter (spec 4.2, `mlflow_secrets_auth.utils.retry_with_jitter`) -/

/-- Modelled from the spec: the un-jittered delay after the `i`-th failed
attempt, `min(maxDelay, baseDelay * backoff^i)`. -/
def rawDelay (baseDelay backoff maxDelay : ℚ) (i : ℕ) : ℚ :=
  min maxDelay (baseDelay * backoff ^ i)

/-- Modelled from the spec: the raw delay perturbed by the drawn jitter
amount `u i` (the uniform draw is injected as an explicit sequence), clamped
to be non-negative. -/
def jitteredDelay (baseDelay backoff maxDelay : ℚ) (u : ℕ → ℚ) (i : ℕ) : ℚ :=
  max 0 (rawDelay baseDelay backoff maxDelay i + u i)

/-- The observable trace of one `retry_with_jitter` run: the final result,
the number of invocations of the operation, and the durations passed to the
injected sleep function, in order. -/
structure RetryTrace (ε α : Type) where
  result : Except ε α
  calls : ℕ
  sleeps : List ℚ

/-- Modelled from the spec: the retry loop from attempt index `i` with
`rest` further attempts allowed after the current one.  On success return
immediately; on failure, if attempts remain, sleep the jittered delay and
try again; the last failure is propagated unchanged and is not followed by
a sleep. -/
def retryGo (op : ℕ → Except ε α) (baseDelay backoff maxDelay : ℚ)
    (u : ℕ → ℚ) : ℕ → ℕ → RetryTrace ε α
  | i, 0 =>
    match op i with
    | .ok a => ⟨.ok a, 1, []⟩
    | .error e => ⟨.error e, 1, []⟩
  | i, rest + 1 =>
    match op i with
    | .ok a => ⟨.ok a, 1, []⟩
    | .error _ =>
      let t := retryGo op baseDelay backoff maxDelay u (i + 1) rest
      ⟨t.result, t.calls + 1, jitteredDelay baseDelay backoff maxDelay u i :: t.sleeps⟩

/-- Modelled from the spec: `retry_with_jitter` attempts the zero-argument
operation up to `attempts` times (the operation is modelled as a sequence of
per-call outcomes). -/
def retry_with_jitter (op : ℕ → Except ε α) (attempts : ℕ)
    (baseDelay backoff maxDelay : ℚ) (u : ℕ → ℚ) : RetryTrace ε α :=
  retryGo op baseDelay backoff maxDelay u 0 (attempts - 1)

theorem range_map_shift (f : ℕ → ℚ) (i r : ℕ) :
    (List.range (r + 1)).map (fun j => f (i + j)) =
      f i :: (List.range r).map (fun j => f (i + 1 + j)) := by
  rw [List.range_succ_eq_map, List.map_cons, List.map_map]
  congr 1
  apply List.map_congr_left
  intro j _
  simp only [Function.comp_apply]
  congr 1
  omega

theorem retryGo_ok_of_fail_then_ok (op : ℕ → Except ε α)
    (b bo m : ℚ) (u : ℕ → ℚ) (a : α) :
    ∀ rest i, (∀ j, j < rest → ∃ e, op (i + j) = .error e) →
      op (i + rest) = .ok a →
      retryGo op b bo m u i rest =
        ⟨.ok a, rest + 1, (List.range rest).map (fun j => jitteredDelay b bo m u (i + j))⟩ := by
  intro rest
  induction rest with
  | zero =>
    intro i _ hok
    simp only [Nat.add_zero] at hok
    simp [retryGo, hok]
  | succ r ih =>
    intro i hfail hok
    obtain ⟨e, he⟩ := hfail 0 (Nat.succ_pos r)
    simp only [Nat.add_zero] at he
    have hrec := ih (i + 1) (fun j hj => by
        obtain ⟨e', he'⟩ := hfail (j + 1) (by omega)
        refine ⟨e', ?_⟩
        have harith : i + 1 + j = i + (j + 1) := by omega
        rw [harith]
        exact he')
      (by
        have harith : i + 1 + r = i + (r + 1) := by omega
        rw [harith]
        exact hok)
    rw [retryGo, he, hrec, range_map_shift (jitteredDelay b bo m u) i r]

theorem retryGo_error_of_all_fail (op : ℕ → Except ε α)
    (b bo m : ℚ) (u : ℕ → ℚ) (e : ℕ → ε) :
    ∀ rest i, (∀ j, j ≤ rest → op (i + j) = .error (e (i + j))) →
      retryGo op b bo m u i rest =
        ⟨.error (e (i + rest)), rest + 1,
         (List.range rest).map (fun j => jitteredDelay b bo m u (i + j))⟩ := by
  intro rest
  induction rest with
  | zero =>
    intro i hfail
    have := hfail 0 (Nat.le_refl 0)
    simp only [Nat.add_zero] at this
    simp [retryGo, this]
  | succ r ih =>
    intro i hfail
    have he := hfail 0 (Nat.zero_le _)
    simp only [Nat.add_zero] at he
    have hrec := ih (i + 1) (fun j hj => by
        have harith : i + 1 + j = i + (j + 1) := by omega
        rw [harith]
        exact hfail (j + 1) (by omega))
    rw [retryGo, he, hrec, range_map_shift (jitteredDelay b bo m u) i r]
    have harith : i + 1 + r = i + (r + 1) := by omega
    rw [harith]

/-- C5: for `n ≥ 1`, an operation failing on its first `n - 1` calls and
succeeding on call `n - 1` (zero-based), run with `attempts = n`, returns the
success value after exactly `n` invocations; an operation that always fails
makes the helper propagate the last attempt's error unchanged after exactly
`n` invocations with exactly `n - 1` sleeps recorded (no sleep after the
final failure). -/
theorem retry_with_jitter_attempts (n : ℕ) (hn : 1 ≤ n)
    (op opBad : ℕ → Except ε α) (a : α) (e : ℕ → ε)
    (b bo m : ℚ) (u : ℕ → ℚ)
    (hfail : ∀ i, i + 1 < n → ∃ e0, op i = .error e0)
    (hok : op (n - 1) = .ok a)
    (hbad : ∀ i, opBad i = .error (e i)) :
    (retry_with_jitter op n b bo m u).result = .ok a ∧
    (retry_with_jitter op n b bo m u).calls = n ∧
    (retry_with_jitter opBad n b bo m u).result = .error (e (n - 1)) ∧
    (retry_with_jitter opBad n b bo m u).calls = n ∧
    (retry_with_jitter opBad n b bo m u).sleeps.length = n - 1 := by
  have hsucc := retryGo_ok_of_fail_then_ok op b bo m u a (n - 1) 0
    (fun j hj => by
      obtain ⟨e0, he0⟩ := hfail j (by omega)
      exact ⟨e0, by simpa using he0⟩)
    (by simpa using hok)
  have hbadr := retryGo_error_of_all_fail opBad b bo m u e (n - 1) 0
    (fun j _ => by simpa using hbad j)
  rw [retry_with_jitter, hsucc, retry_with_jitter, hbadr]
  refine ⟨rfl, ?_, by simp, ?_, by simp⟩
  · show n - 1 + 1 = n
    omega
  · show n - 1 + 1 = n
    omega

/-- Concrete instantiation of `retry_with_jitter_attempts` at `n = 3`. -/
theorem retry_with_jitter_attempts_witness :
    (retry_with_jitter
      (fun i => if i < 2 then Except.error (toString i) else Except.ok "s")
      3 1 2 10 (fun _ => 0)).result = .ok "s" ∧
    (retry_with_jitter
      (fun i => if i < 2 then Except.error (toString i) else Except.ok "s")
      3 1 2 10 (fun _ => 0)).calls = 3 ∧
    (retry_with_jitter (fun i => (Except.error (toString i) : Except String String))
      3 1 2 10 (fun _ => 0)).result = .error "2" ∧
    (retry_with_jitter (fun i => (Except.error (toString i) : Except String String))
      3 1 2 10 (fun _ => 0)).calls = 3 ∧
    (retry_with_jitter (fun i => (Except.error (toString i) : Except String String))
      3 1 2 10 (fun _ => 0)).sleeps.length = 2 :=
  retry_with_jitter_attempts 3 (by norm_num)
    (fun i => if i < 2 then Except.error (toString i) else Except.ok "s")
    (fun i => (Except.error (toString i) : Except String String))
    "s" toString 1 2 10 (fun _ => 0)
    (fun i hi => ⟨toString i, by
      have : i < 2 := by omega
      simp [this]⟩)
    (by norm_num)
    (fun i => rfl)

theorem retryGo_sleeps_getElem (op : ℕ → Except ε α) (b bo m : ℚ) (u : ℕ → ℚ) :
    ∀ rest i j d, (retryGo op b bo m u i rest).sleeps.get? j = some d →
      d = jitteredDelay b bo m u (i + j) := by
  intro rest
  induction rest with
  | zero =>
    intro i j d h
    rw [retryGo] at h
    rcases hop : op i with e | a <;> rw [hop] at h <;> simp at h
  | succ r ih =>
    intro i j d h
    rcases hop : op i with e | a
    · simp only [retryGo, hop] at h
      rcases j with _ | j
      · simp only [List.get?_cons_zero, Option.some.injEq] at h
        rw [← h, Nat.add_zero]
      · simp only [List.get?_cons_succ] at h
        rw [ih (i + 1) j d h]
        congr 1
        omega
    · simp only [retryGo, hop] at h
      simp at h

/-- Amended C6 claim: with zero jitter the sleep after the `i`-th failed
attempt equals exactly `min(max_delay, base_delay * backoff^i)` (hence is at
most `max_delay`); with jitter fraction `jit` and every drawn perturbation
within `±jit` times the raw delay, each sleep is at most
`(1 + jit) * max_delay` (but may exceed `max_delay` itself). -/
theorem retry_delay_formula (op : ℕ → Except ε α) (n : ℕ) (b bo m jit : ℚ)
    (u : ℕ → ℚ) (hb : 0 ≤ b) (hbo : 0 ≤ bo) (hm : 0 ≤ m) (hjit : 0 ≤ jit)
    (hu : ∀ i, |u i| ≤ jit * rawDelay b bo m i) :
    (∀ j d, (retry_with_jitter op n b bo m (fun _ => 0)).sleeps.get? j = some d →
      d = rawDelay b bo m j ∧ d ≤ m) ∧
    (∀ j d, (retry_with_jitter op n b bo m u).sleeps.get? j = some d →
      d ≤ (1 + jit) * m) := by
  have hraw_nonneg : ∀ i, 0 ≤ rawDelay b bo m i := fun i =>
    le_min hm (mul_nonneg hb (pow_nonneg hbo i))
  have hraw_le : ∀ i, rawDelay b bo m i ≤ m := fun i => min_le_left _ _
  constructor
  · intro j d h
    have := retryGo_sleeps_getElem op b bo m (fun _ => 0) (n - 1) 0 j d h
    rw [this]
    simp only [Nat.zero_add, jitteredDelay, add_zero]
    rw [max_eq_right (hraw_nonneg j)]
    exact ⟨rfl, hraw_le j⟩
  · intro j d h
    have := retryGo_sleeps_getElem op b bo m u (n - 1) 0 j d h
    rw [this]
    simp only [Nat.zero_add, jitteredDelay]
    have h1 : rawDelay b bo m j + u j ≤ (1 + jit) * rawDelay b bo m j := by
      have := (abs_le.mp (hu j)).2
      linarith [this]
    have h2 : (1 + jit) * rawDelay b bo m j ≤ (1 + jit) * m :=
      mul_le_mul_of_nonneg_left (hraw_le j) (by linarith)
    have h3 : 0 ≤ (1 + jit) * m := mul_nonneg (by linarith) hm
    exact max_le h3 (le_trans h1 h2)

/-- Concrete instantiation of `retry_delay_formula`. -/
theorem retry_delay_formula_witness :
    (retry_with_jitter (fun _ => (Except.error "e" : Except String String))
      3 1 2 10 (fun _ => 0)).sleeps.get? 1 = some 2 ∧
    (2 : ℚ) = rawDelay 1 2 10 1 ∧ (2 : ℚ) ≤ 10 ∧ (2 : ℚ) ≤ (1 + 0) * 10 := by
  have h := retry_delay_formula (fun _ => (Except.error "e" : Except String String))
    3 1 2 10 0 (fun _ => 0) (by norm_num) (by norm_num) (by norm_num) (by norm_num)
    (fun i => by
      simp only [abs_zero]
      exact mul_nonneg le_rfl (le_min (by norm_num)
        (mul_nonneg (by norm_num) (pow_nonneg (by norm_num) i))))
  have hsl : (retry_with_jitter (fun _ => (Except.error "e" : Except String String))
      3 1 2 10 (fun _ => 0)).sleeps.get? 1 = some 2 := by
    simp only [retry_with_jitter, retryGo, jitteredDelay, rawDelay]
    norm_num [min_def, max_def]
  obtain ⟨hz, hg⟩ := h
  obtain ⟨he, hb⟩ := hz 1 2 hsl
  exact ⟨hsl, he, hb, hg 1 2 hsl⟩

/-- The C6 claim as stated is false: the spec perturbs the delay after
capping it at `max_delay` and only clamps to be non-negative, so a legal
jitter draw (here `u 0 = 1`, within `±jitter * delay` for `jitter = 1`)
produces a sleep of `2`, exceeding `max_delay = 1`. -/
theorem retry_max_delay_cap_counterexample :
    |(1 : ℚ)| ≤ 1 * rawDelay 2 1 1 0 ∧
    (retry_with_jitter (fun _ => (Except.error "e" : Except String String))
      2 2 1 1 (fun _ => 1)).sleeps = [2] ∧
    ¬ ((2 : ℚ) ≤ 1) := by
  refine ⟨?_, ?_, by norm_num⟩
  · rw [rawDelay]
    norm_num
  · simp only [retry_with_jitter, retryGo, jitteredDelay, rawDelay]
    norm_num [min_def, max_def]

/-! ## Secret parser (spec 4.3, `mlflow_secrets_auth.utils.parse_secret_json`) -/

/-- A normalized credential record: exactly one of Bearer or Basic. -/
inductive Credential where
  | bearer (token : String)
  | basic (username password : String)
deriving DecidableEq

/-- Modelled from the spec: raw secret material is either a structured
(JSON-like) object with string fields, or unstructured plain text; the JSON
parse attempt of the missing implementation is abstracted as this
constructor distinction. -/
inductive RawSecret where
  | structured (fields : List (String × String))
  | text (s : String)
deriving DecidableEq

/-- Field lookup in a structured secret object. -/
def lookupField (fields : List (String × String)) (k : String) : Option String :=
  (fields.find? (fun f => f.1 == k)).map (fun f => f.2)

/-- Whitespace-trimming on both ends, written over the character list so it
evaluates by kernel reduction. -/
def strTrim (s : String) : String :=
  String.mk ((((s.toList.dropWhile Char.isWhitespace).reverse.dropWhile
    Char.isWhitespace).reverse))

/-- Split a character list on a separator character; mirrors Python's
`str.split` with a single-character separator. -/
def splitOnChar (sep : Char) : List Char → List (List Char)
  | [] => [[]]
  | c :: cs =>
    let r := splitOnChar sep cs
    if c = sep then [] :: r
    else
      match r with
      | [] => [[c]]
      | h :: t => (c :: h) :: t

/-- Split a string on the colon character. -/
def splitColon (s : String) : List String :=
  (splitOnChar ':' s.toList).map String.mk

/-- Modelled from the spec: a structured object with a `token` field gives a
Bearer credential with the token trimmed; one with `username` and `password`
gives Basic (both trimmed); structured with neither is an error.
Unstructured text that is empty or whitespace-only is an error; with exactly
one colon it splits into `username:password`; otherwise the entire string is
a Bearer token. -/
def parse_secret_json : RawSecret → Except String Credential
  | .structured fields =>
    match lookupField fields "token" with
    | some t => .ok (.bearer (strTrim t))
    | none =>
      match lookupField fields "username", lookupField fields "password" with
      | some un, some pw => .ok (.basic (strTrim un) (strTrim pw))
      | _, _ => .error "Secret must contain either token or username and password"
  | .text s =>
    if strTrim s = "" then .error "Secret is empty"
    else
      match splitColon s with
      | [un, pw] => .ok (.basic un pw)
      | _ => .ok (.bearer s)

/-- C7: the parser maps a structured object with a `token` field to a Bearer
credential with trimmed token; one with `username` and `password` (and no
`token`) to a Basic credential; structured with neither to an error; empty
or whitespace-only text to an error; non-structured text with exactly one
colon separator to a Basic credential split at that colon; and every other
non-structured non-empty text to a Bearer credential holding the entire
string. -/
theorem parse_secret_json_cases :
    (∀ fields t, lookupField fields "token" = some t →
      parse_secret_json (.structured fields) = .ok (.bearer (strTrim t))) ∧
    (∀ fields un pw, lookupField fields "token" = none →
      lookupField fields "username" = some un →
      lookupField fields "password" = some pw →
      parse_secret_json (.structured fields) = .ok (.basic (strTrim un) (strTrim pw))) ∧
    (∀ fields, lookupField fields "token" = none →
      (lookupField fields "username" = none ∨ lookupField fields "password" = none) →
      ∃ msg, parse_secret_json (.structured fields) = .error msg) ∧
    (∀ s, strTrim s = "" → ∃ msg, parse_secret_json (.text s) = .error msg) ∧
    (∀ s un pw, strTrim s ≠ "" → splitColon s = [un, pw] →
      parse_secret_json (.text s) = .ok (.basic un pw)) ∧
    (∀ s, strTrim s ≠ "" → (∀ un pw, splitColon s ≠ [un, pw]) →
      parse_secret_json (.text s) = .ok (.bearer s)) := by
  refine ⟨?_, ?_, ?_, ?_, ?_, ?_⟩
  · intro fields t ht
    simp [parse_secret_json, ht]
  · intro fields un pw ht hu hp
    simp [parse_secret_json, ht, hu, hp]
  · intro fields ht hup
    refine ⟨"Secret must contain either token or username and password", ?_⟩
    rcases hup with hu | hp
    · rcases hcase : lookupField fields "password" with _ | pw <;>
        simp [parse_secret_json, ht, hu, hcase]
    · rcases hcase : lookupField fields "username" with _ | un <;>
        simp [parse_secret_json, ht, hp, hcase]
  · intro s hs
    exact ⟨"Secret is empty", by simp [parse_secret_json, hs]⟩
  · intro s un pw hs hsplit
    simp [parse_secret_json, hs, hsplit]
  · intro s hs hsplit
    rw [parse_secret_json, if_neg hs]
    rcases hcase : splitColon s with _ | ⟨a, _ | ⟨b, _ | _⟩⟩ <;>
      first
        | rfl
        | exact absurd hcase (hsplit _ _)

/-- Concrete instantiation of `parse_secret_json_cases` on the test vectors. -/
theorem parse_secret_json_cases_witness :
    parse_secret_json (.structured [("token", "  t  ")]) = .ok (.bearer "t") ∧
    parse_secret_json (.structured [("username", "u"), ("password", "p")]) =
      .ok (.basic "u" "p") ∧
    (∃ msg, parse_secret_json (.structured [("x", "y")]) = .error msg) ∧
    (∃ msg, parse_secret_json (.text "   ") = .error msg) ∧
    parse_secret_json (.text "user:pass") = .ok (.basic "user" "pass") ∧
    parse_secret_json (.text "plain") = .ok (.bearer "plain") := by
  obtain ⟨h1, h2, h3, h4, h5, h6⟩ := parse_secret_json_cases
  refine ⟨?_, ?_, ?_, ?_, ?_, ?_⟩
  · have := h1 [("token", "  t  ")] "  t  " rfl
    rw [this, show strTrim "  t  " = "t" from by decide]
  · have := h2 [("username", "u"), ("password", "p")] "u" "p" rfl rfl rfl
    rw [this, show strTrim "u" = "u" from by decide,
      show strTrim "p" = "p" from by decide]
  · exact h3 [("x", "y")] rfl (Or.inl rfl)
  · exact h4 "   " (by decide)
  · exact h5 "user:pass" "user" "pass" (by decide) (by decide)
  · refine h6 "plain" (by decide) ?_
    intro un pw h
    rw [show splitColon "plain" = ["plain"] from by decide] at h
    simp at h

/-! ## Host allowlist matcher (spec 4.4, `mlflow_secrets_auth.utils.is_host_allowed`) -/

/-- Scan a glob pattern after an opening bracket: the character-class body
up to the closing bracket, and the remainder of the pattern. -/
def takeClass : List Char → Option (List Char × List Char)
  | [] => none
  | c :: cs =>
    if c = ']' then some ([], cs)
    else
      match takeClass cs with
      | some (body, rest) => some (c :: body, rest)
      | none => none

/-- Membership of a character in a character-class body, supporting `a-z`
ranges and literal characters. -/
def charInClass (c : Char) : List Char → Bool
  | a :: '-' :: b :: rest => (decide (a ≤ c) && decide (c ≤ b)) || charInClass c rest
  | a :: rest => (c == a) || charInClass c rest
  | [] => false

/-- Character-class matching, with `!` negation as the first body
character. -/
def classMatch (c : Char) (body : List Char) : Bool :=
  match body with
  | '!' :: rest => ! charInClass c rest
  | _ => charInClass c body

/-- All suffixes of a character list, longest first. -/
def suffixes : List Char → List (List Char)
  | [] => [[]]
  | c :: cs => (c :: cs) :: suffixes cs

/-- Modelled from the spec: glob matching over the whole hostname string.
`*` matches any run of zero or more characters (realised as matching the
remaining pattern against some suffix), `?` exactly one character, `[...]`
character classes; literal characters match exactly.  The fuel argument is
a structural-recursion device; every step strictly shrinks the pattern, so
`pattern length + 1` fuel always suffices. -/
def globMatchFuel : ℕ → List Char → List Char → Bool
  | 0, _, _ => false
  | _ + 1, [], s => s.isEmpty
  | f + 1, '*' :: ps, s => (suffixes s).any (fun t => globMatchFuel f ps t)
  | f + 1, '?' :: ps, _ :: cs => globMatchFuel f ps cs
  | _ + 1, '?' :: _, [] => false
  | f + 1, '[' :: ps, c :: cs =>
    match takeClass ps with
    | some (body, rest) => classMatch c body && globMatchFuel f rest cs
    | none => (c == '[') && globMatchFuel f ps cs
  | _ + 1, '[' :: _, [] => false
  | f + 1, p :: ps, c :: cs => (p == c) && globMatchFuel f ps cs
  | _ + 1, _ :: _, [] => false

/-- Glob matching of a pattern against a whole string (as character lists). -/
def globMatch (p s : List Char) : Bool := globMatchFuel (p.length + 1) p s

/-- Lower-case a string character by character. -/
def lowerStr (s : String) : String := String.mk (s.toList.map Char.toLower)

/-- Modelled from the spec: extract the hostname component of a URL — the
part after the first scheme separator up to the path, query or fragment,
with the port suffix stripped, lower-cased; `none` for malformed URLs and
empty hostnames. -/
def afterSchemeSep : List Char → Option (List Char)
  | ':' :: '/' :: '/' :: rest => some rest
  | _ :: cs => afterSchemeSep cs
  | [] => none

def hostnameOf (url : String) : Option String :=
  match afterSchemeSep url.toList with
  | none => none
  | some rest =>
    let netloc := rest.takeWhile (fun c => !(c == '/' || c == '?' || c == '#'))
    let host := netloc.takeWhile (fun c => !(c == ':'))
    if host.isEmpty then none
    else some (String.mk (host.map Char.toLower))

/-- Modelled from the spec: `None` allowlist allows every URL; otherwise
the extracted hostname must glob-match at least one (lower-cased)
pattern; no extractable hostname means not allowed. -/
def is_host_allowed (url : String) (allowedHosts : Option (List String)) : Bool :=
  match allowedHosts with
  | none => true
  | some patterns =>
    match hostnameOf url with
    | none => false
    | some host => patterns.any (fun p => globMatch (lowerStr p).toList host.toList)

/-- C8: a `None` allowlist allows every URL, malformed ones included; with a
pattern list the result is true exactly when the extracted lower-cased,
port-stripped hostname glob-matches some pattern; no extractable hostname
gives false; and concretely the pattern list containing only the pattern
star-dot-example-dot-com matches `api.example.com` but not `example.com`,
matching is case-insensitive and port-insensitive, `[0-9]` classes and `?`
behave as glob tokens. -/
theorem is_host_allowed_spec :
    (∀ url, is_host_allowed url none = true) ∧
    (∀ url ps, hostnameOf url = none → is_host_allowed url (some ps) = false) ∧
    (∀ url ps host, hostnameOf url = some host →
      (is_host_allowed url (some ps) = true ↔
        ∃ p ∈ ps, globMatch (lowerStr p).toList host.toList = true)) ∧
    is_host_allowed "https://api.example.com/path" (some ["*.example.com"]) = true ∧
    is_host_allowed "https://example.com" (some ["*.example.com"]) = false ∧
    is_host_allowed "https://API.EXAMPLE.COM:8080/x" (some ["*.Example.COM"]) = true ∧
    is_host_allowed "not-a-url" (some ["*.example.com"]) = false ∧
    is_host_allowed "" (some ["*.example.com"]) = false ∧
    is_host_allowed "https://api1.example.com" (some ["api[0-9].example.com"]) = true ∧
    is_host_allowed "https://api12.example.com" (some ["api?.example.com"]) = false := by
  refine ⟨?_, ?_, ?_, by decide, by decide, by decide, by decide, by decide,
    by decide, by decide⟩
  · intro url
    rfl
  · intro url ps h
    simp [is_host_allowed, h]
  · intro url ps host h
    simp [is_host_allowed, h, List.any_eq_true]

/-- Concrete instantiation of `is_host_allowed_spec`. -/
theorem is_host_allowed_spec_witness :
    is_host_allowed "https://any.example.com/path" none = true ∧
    is_host_allowed "file:///local/path" (some ["*.example.com"]) = false ∧
    (is_host_allowed "https://web.example.com" (some ["localhost", "*.example.com"]) = true ↔
      ∃ p ∈ ["localhost", "*.example.com"],
        globMatch (lowerStr p).toList "web.example.com".toList = true) := by
  obtain ⟨h1, h2, h3, _⟩ := is_host_allowed_spec
  exact ⟨h1 "https://any.example.com/path",
    h2 "file:///local/path" ["*.example.com"] (by decide),
    h3 "https://web.example.com" ["localhost", "*.example.com"] "web.example.com" (by decide)⟩

/-! ## Request authenticators (spec 4.5, `BearerAuth` / `BasicAuth`) -/

/-- An outgoing HTTP request, reduced to its headers map. -/
structure HttpRequest where
  headers : List (String × String)
deriving DecidableEq

/-- Set a header, overwriting any existing header of the same name. -/
def setHeader (r : HttpRequest) (k v : String) : HttpRequest :=
  ⟨(k, v) :: r.headers.filter (fun h => h.1 != k)⟩

/-- Read a header. -/
def getHeader (r : HttpRequest) (k : String) : Option String :=
  (r.headers.find? (fun h => h.1 == k)).map (fun h => h.2)

/-- The RFC 4648 base64 alphabet. -/
def base64Chars : List Char :=
  "ABCDEFGHIJKLMNOPQRSTUVWXYZabcdefghijklmnopqrstuvwxyz0123456789+/".toList

def base64Digit (n : ℕ) : Char := base64Chars.getD n '='

/-- Base64-encode a byte list, three bytes at a time. -/
def base64Chunks : List ℕ → List Char
  | [] => []
  | [a] => [base64Digit (a / 4), base64Digit (a % 4 * 16), '=', '=']
  | [a, b] =>
    [base64Digit (a / 4), base64Digit (a % 4 * 16 + b / 16), base64Digit (b % 16 * 4), '=']
  | a :: b :: c :: rest =>
    base64Digit (a / 4) :: base64Digit (a % 4 * 16 + b / 16) ::
      base64Digit (b % 16 * 4 + c / 64) :: base64Digit (c % 64) :: base64Chunks rest

/-- Base64 encoding of a string's UTF-8 bytes. -/
def base64Encode (s : String) : String :=
  String.mk (base64Chunks (s.toUTF8.toList.map (fun b => b.toNat)))

/-- An authenticator strategy: Bearer or Basic, with the process-wide
configured header name. -/
inductive AuthStrategy where
  | bearerAuth (token : String) (headerName : String)
  | basicAuth (username password : String) (headerName : String)
deriving DecidableEq

def authHeaderName : AuthStrategy → String
  | .bearerAuth _ hn => hn
  | .basicAuth _ _ hn => hn

/-- Modelled from the spec: under the default header name the value carries
the scheme prefix (`Bearer` / `Basic base64`); under a custom header name
the raw value is used with no scheme prefix. -/
def authHeaderValue : AuthStrategy → String
  | .bearerAuth t hn => if hn = "Authorization" then "Bearer " ++ t else t
  | .basicAuth un pw hn =>
    if hn = "Authorization" then "Basic " ++ base64Encode (un ++ ":" ++ pw)
    else base64Encode (un ++ ":" ++ pw)

/-- Modelled from the spec: applying an authenticator injects its header
into the request. -/
def applyAuth (a : AuthStrategy) (r : HttpRequest) : HttpRequest :=
  setHeader r (authHeaderName a) (authHeaderValue a)

theorem getHeader_setHeader_self (r : HttpRequest) (k v : String) :
    getHeader (setHeader r k v) k = some v := by
  simp [getHeader, setHeader, List.find?]

theorem find_filter_ne (l : List (String × String)) (k k2 : String) (hne : k2 ≠ k) :
    (l.filter (fun h => h.1 != k)).find? (fun h => h.1 == k2) =
      l.find? (fun h => h.1 == k2) := by
  induction l with
  | nil => rfl
  | cons hd tl ih =>
    by_cases hhd : hd.1 = k
    · have h1 : (hd.1 != k) = false := by simp [hhd]
      have h2 : (hd.1 == k2) = false := by
        simp only [beq_eq_false_iff_ne, ne_eq]
        rw [hhd]
        exact fun hcon => hne hcon.symm
      simp only [List.filter_cons, h1, Bool.false_eq_true, if_false, List.find?_cons, h2, ih]
    · have h1 : (hd.1 != k) = true := by simp [hhd]
      simp only [List.filter_cons, h1, if_true, List.find?_cons]
      rcases hcase : (hd.1 == k2) with _ | _
      · exact ih
      · rfl

theorem getHeader_setHeader_other (r : HttpRequest) (k k2 v : String) (hne : k2 ≠ k) :
    getHeader (setHeader r k v) k2 = getHeader r k2 := by
  have hk : (k == k2) = false := by
    simp only [beq_eq_false_iff_ne, ne_eq]
    exact fun hcon => hne hcon.symm
  simp only [getHeader, setHeader, List.find?_cons, hk, find_filter_ne r.headers k k2 hne]

/-- C9: with the default configuration the Bearer authenticator sets the
header `Authorization` to `Bearer token`; with a configured non-default
header name the raw token is placed in that header with no scheme prefix
and the `Authorization` header is left exactly as it was (in particular it
is not set at all on a request that did not carry it). -/
theorem bearer_auth_header_placement (t hn : String) (r : HttpRequest) :
    getHeader (applyAuth (.bearerAuth t "Authorization") r) "Authorization" =
      some ("Bearer " ++ t) ∧
    (hn ≠ "Authorization" →
      getHeader (applyAuth (.bearerAuth t hn) r) hn = some t ∧
      getHeader (applyAuth (.bearerAuth t hn) r) "Authorization" =
        getHeader r "Authorization") := by
  constructor
  · rw [applyAuth]
    show getHeader (setHeader r "Authorization" (authHeaderValue _)) "Authorization" = _
    rw [getHeader_setHeader_self]
    rfl
  · intro hne
    constructor
    · rw [applyAuth]
      show getHeader (setHeader r hn (authHeaderValue _)) hn = _
      rw [getHeader_setHeader_self]
      simp [authHeaderValue, hne]
    · rw [applyAuth]
      exact getHeader_setHeader_other r hn "Authorization" _ (fun h => hne h.symm)

/-- Concrete instantiation of `bearer_auth_header_placement` with the
custom header name from the unit tests. -/
theorem bearer_auth_header_placement_witness :
    getHeader (applyAuth (.bearerAuth "custom-token" "X-Custom-Auth") ⟨[]⟩)
      "X-Custom-Auth" = some "custom-token" ∧
    getHeader (applyAuth (.bearerAuth "custom-token" "X-Custom-Auth") ⟨[]⟩)
      "Authorization" = none ∧
    getHeader (applyAuth (.bearerAuth "test-bearer-token" "Authorization") ⟨[]⟩)
      "Authorization" = some "Bearer test-bearer-token" := by
  obtain ⟨h1, h2⟩ :=
    bearer_auth_header_placement "custom-token" "X-Custom-Auth" ⟨[]⟩
  obtain ⟨h3, h4⟩ := h2 (by decide)
  exact ⟨h3, h4, (bearer_auth_header_placement "test-bearer-token" "X" ⟨[]⟩).1⟩

/-! ## Secrets-backed provider base (spec 4.6,
`mlflow_secrets_auth.base.SecretsBackedAuthProvider`) -/

/-- Modelled from the spec: the resolved configuration a provider instance
sees — its name, the enabled-backend flag, the host allowlist, the auth
mode, the configured header name, the provider-specific cache key fragment
and the TTL. -/
structure ProviderConfig where
  providerName : String
  enabledBackend : Option String
  allowedHosts : Option (List String)
  authMode : String
  headerName : String
  cacheKeyFragment : String
  ttl : ℚ
deriving DecidableEq

/-- Cache key: provider name and provider-specific fragment, colon-joined. -/
def providerCacheKey (cfg : ProviderConfig) : String :=
  cfg.providerName ++ ":" ++ cfg.cacheKeyFragment

/-- Modelled from the spec: enablement is a configuration flag naming which
single backend is active. -/
def isEnabled (cfg : ProviderConfig) : Bool :=
  cfg.enabledBackend == some cfg.providerName

/-- Modelled from the spec: build the authenticator for the configured auth
mode (`basic` requires a Basic credential, any other mode is the default
`bearer` and requires a Bearer credential); a shape mismatch yields
`none`. -/
def _create_auth_inner (cfg : ProviderConfig) (c : Credential) : Option AuthStrategy :=
  if cfg.authMode = "basic" then
    match c with
    | .basic un pw => some (.basicAuth un pw cfg.headerName)
    | .bearer _ => none
  else
    match c with
    | .bearer t => some (.bearerAuth t cfg.headerName)
    | .basic _ _ => none

/-- The wrapped authenticator handed back to the HTTP client: the inner
strategy plus the cache key the auto-refresh hook will evict. -/
structure AutoRefreshAuth where
  auth : AuthStrategy
  cacheKey : String
deriving DecidableEq

def _create_auth (cfg : ProviderConfig) (c : Credential) : Option AutoRefreshAuth :=
  (_create_auth_inner cfg c).map (fun a => ⟨a, providerCacheKey cfg⟩)

/-- The raw secret the cached fetch path sees: the cached value on a hit,
otherwise whatever the backend fetch produced (the fetch, including its
retry loop, is summarised as one `Except` outcome). -/
def rawSecretResult (cfg : ProviderConfig) (fetch : Except String RawSecret)
    (cache : TTLCache RawSecret) (now : ℚ) : Option RawSecret :=
  match cacheGet cache (providerCacheKey cfg) now with
  | some raw => some raw
  | none => fetch.toOption

/-- Modelled from the spec: get-or-fetch the raw secret through the cache
(storing a fresh fetch under the provider's key with its TTL before
parsing), then parse it; every failure gives `none`. -/
def _fetch_secret_cached (cfg : ProviderConfig) (fetch : Except String RawSecret)
    (cache : TTLCache RawSecret) (now : ℚ) : Option Credential × TTLCache RawSecret :=
  match cacheGet cache (providerCacheKey cfg) now with
  | some raw => ((parse_secret_json raw).toOption, cache)
  | none =>
    match fetch with
    | .error _ => (none, cache)
    | .ok raw =>
      ((parse_secret_json raw).toOption, cacheSet cache (providerCacheKey cfg) raw cfg.ttl now)

/-- Modelled from the spec: `get_auth` checks enablement, then fetches
through the cache, parses and builds the wrapped authenticator; every
failure degrades to `none` (the function is total, so it never raises). -/
def get_auth (cfg : ProviderConfig) (fetch : Except String RawSecret)
    (cache : TTLCache RawSecret) (now : ℚ) :
    Option AutoRefreshAuth × TTLCache RawSecret :=
  if isEnabled cfg then
    match _fetch_secret_cached cfg fetch cache now with
    | (some c, cache2) => (_create_auth cfg c, cache2)
    | (none, cache2) => (none, cache2)
  else (none, cache)

/-- Modelled from the spec: `get_request_auth` additionally gates on the
host allowlist before ever fetching. -/
def get_request_auth (cfg : ProviderConfig) (fetch : Except String RawSecret)
    (cache : TTLCache RawSecret) (now : ℚ) (url : String) :
    Option AutoRefreshAuth × TTLCache RawSecret :=
  if isEnabled cfg then
    if is_host_allowed url cfg.allowedHosts then get_auth cfg fetch cache now
    else (none, cache)
  else (none, cache)

theorem fetch_secret_cached_fst (cfg : ProviderConfig) (fetch : Except String RawSecret)
    (cache : TTLCache RawSecret) (now : ℚ) :
    (_fetch_secret_cached cfg fetch cache now).1 =
      (rawSecretResult cfg fetch cache now).bind
        (fun raw => (parse_secret_json raw).toOption) := by
  unfold _fetch_secret_cached rawSecretResult
  rcases cacheGet cache (providerCacheKey cfg) now with _ | raw
  · rcases fetch with e | raw2 <;> simp [Except.toOption]
  · simp

theorem get_auth_fst_none_iff (cfg : ProviderConfig) (fetch : Except String RawSecret)
    (cache : TTLCache RawSecret) (now : ℚ) :
    (get_auth cfg fetch cache now).1 = none ↔
      isEnabled cfg = false ∨
      rawSecretResult cfg fetch cache now = none ∨
      (∃ raw msg, rawSecretResult cfg fetch cache now = some raw ∧
        parse_secret_json raw = .error msg) ∨
      (∃ raw c, rawSecretResult cfg fetch cache now = some raw ∧
        parse_secret_json raw = .ok c ∧ _create_auth_inner cfg c = none) := by
  rw [get_auth]
  by_cases hen : isEnabled cfg = true
  · rw [if_pos hen]
    have hfst := fetch_secret_cached_fst cfg fetch cache now
    rcases hf : _fetch_secret_cached cfg fetch cache now with ⟨o, cache2⟩
    rw [hf] at hfst
    simp only at hfst
    rcases hraw : rawSecretResult cfg fetch cache now with _ | raw
    · rw [hraw, Option.none_bind] at hfst
      subst hfst
      exact ⟨fun _ => Or.inr (Or.inl rfl), fun _ => rfl⟩
    · rw [hraw, Option.some_bind] at hfst
      rcases hp : parse_secret_json raw with msg | c
      · rw [hp] at hfst
        simp only [Except.toOption] at hfst
        subst hfst
        exact ⟨fun _ => Or.inr (Or.inr (Or.inl ⟨raw, msg, rfl, hp⟩)), fun _ => rfl⟩
      · rw [hp] at hfst
        simp only [Except.toOption] at hfst
        subst hfst
        show _create_auth cfg c = none ↔ _
        constructor
        · intro hnone
          refine Or.inr (Or.inr (Or.inr ⟨raw, c, rfl, hp, ?_⟩))
          rcases hinner : _create_auth_inner cfg c with _ | a
          · rfl
          · rw [_create_auth, hinner] at hnone
            exact absurd hnone (by simp)
        · intro hcases
          rcases hcases with h | h | h | h
          · rw [hen] at h
            exact Bool.noConfusion h
          · exact Option.noConfusion h
          · obtain ⟨raw2, msg2, hraw2, hp2⟩ := h
            injection hraw2 with hraw2
            subst hraw2
            rw [hp] at hp2
            exact Except.noConfusion hp2
          · obtain ⟨raw2, c2, hraw2, hp2, hinner2⟩ := h
            injection hraw2 with hraw2
            subst hraw2
            rw [hp] at hp2
            injection hp2 with hp2
            subst hp2
            rw [_create_auth, hinner2]
            rfl
  · rw [if_neg hen]
    have hen2 : isEnabled cfg = false := by
      revert hen
      cases isEnabled cfg <;> simp
    exact ⟨fun _ => Or.inl hen2, fun _ => rfl⟩

/-- C1: `get_request_auth` (and `get_auth`, the `url`-less path) is a total
function returning an optional authenticator — never an exception — and it
returns `none` exactly when the provider is not the enabled backend, the
URL fails the configured allowlist, the backend fetch fails on a cache
miss, the fetched secret is empty or malformed (parse error), or the parsed
credential does not match the configured auth mode; otherwise it returns an
authenticator. -/
theorem get_request_auth_none_iff (cfg : ProviderConfig) (fetch : Except String RawSecret)
    (cache : TTLCache RawSecret) (now : ℚ) (url : String) :
    (get_request_auth cfg fetch cache now url).1 = none ↔
      isEnabled cfg = false ∨
      is_host_allowed url cfg.allowedHosts = false ∨
      rawSecretResult cfg fetch cache now = none ∨
      (∃ raw msg, rawSecretResult cfg fetch cache now = some raw ∧
        parse_secret_json raw = .error msg) ∨
      (∃ raw c, rawSecretResult cfg fetch cache now = some raw ∧
        parse_secret_json raw = .ok c ∧ _create_auth_inner cfg c = none) := by
  rw [get_request_auth]
  by_cases hen : isEnabled cfg = true
  · rw [if_pos hen]
    by_cases hal : is_host_allowed url cfg.allowedHosts = true
    · rw [if_pos hal, get_auth_fst_none_iff cfg fetch cache now]
      constructor
      · intro h
        rcases h with h | h
        · exact Or.inl h
        · exact Or.inr (Or.inr h)
      · intro h
        rcases h with h | h | h
        · exact Or.inl h
        · rw [hal] at h
          exact Bool.noConfusion h
        · exact Or.inr h
    · rw [if_neg hal]
      have hal2 : is_host_allowed url cfg.allowedHosts = false := by
        revert hal
        cases is_host_allowed url cfg.allowedHosts <;> simp
      exact ⟨fun _ => Or.inr (Or.inl hal2), fun _ => rfl⟩
  · rw [if_neg hen]
    have hen2 : isEnabled cfg = false := by
      revert hen
      cases isEnabled cfg <;> simp
    exact ⟨fun _ => Or.inl hen2, fun _ => rfl⟩

/-! ## Auto-refresh response handler (spec 4.7,
`mlflow_secrets_auth.base._AutoRefreshAuth._handle_auth_failure`) -/

/-- An HTTP response, reduced to its status code and the request that
produced it (the underlying session is passed to the handler as the `send`
function). -/
structure HttpResponse where
  status : ℕ
  request : HttpRequest
deriving DecidableEq

/-- The retry marker header name, exact casing. -/
def retriedHeader : String := "X-MLFSA-Retried"

/-- The observable outcome of one `_handle_auth_failure` run: the response
handed back to the caller, the number of provider fetch attempts, the
requests resent on the originating session, and the cache afterwards. -/
structure RefreshResult where
  response : HttpResponse
  fetchCalls : ℕ
  resends : List HttpRequest
  cache : TTLCache RawSecret
deriving DecidableEq

/-- Modelled from the spec: on a 401/403 response whose request does not
carry the retry marker, evict the cache entry for the wrapper's cache key,
re-fetch through the provider's cached-fetch path, and on success apply a
fresh authenticator to a marked copy of the original request and resend it
on the same session, returning that response; in every other situation
(other status, marker present, no credential, refresh exception — the
latter folded into the fetch outcome) return the original response
unchanged. -/
def _handle_auth_failure (cfg : ProviderConfig) (fetch : Except String RawSecret)
    (send : HttpRequest → HttpResponse) (cache : TTLCache RawSecret) (now : ℚ)
    (cacheKey : String) (resp : HttpResponse) : RefreshResult :=
  if resp.status = 401 ∨ resp.status = 403 then
    if getHeader resp.request retriedHeader = some "true" then
      ⟨resp, 0, [], cache⟩
    else
      match _fetch_secret_cached cfg fetch (cacheDelete cache cacheKey) now with
      | (none, cache2) => ⟨resp, 1, [], cache2⟩
      | (some c, cache2) =>
        match _create_auth_inner cfg c with
        | none => ⟨resp, 1, [], cache2⟩
        | some freshAuth =>
          let retryReq := applyAuth freshAuth (setHeader resp.request retriedHeader "true")
          ⟨send retryReq, 1, [retryReq], cache2⟩
  else ⟨resp, 0, [], cache⟩

/-- C2: the handler refreshes only on a 401/403 response whose request does
not carry `X-MLFSA-Retried: true`; for any other status, or when the marker
is present, it returns the original response unchanged with no provider
fetch, no resend and the cache untouched — so any single request is resent
at most once. -/
theorem handle_auth_failure_pass_through (cfg : ProviderConfig)
    (fetch : Except String RawSecret) (send : HttpRequest → HttpResponse)
    (cache : TTLCache RawSecret) (now : ℚ) (cacheKey : String) (resp : HttpResponse) :
    (¬ (resp.status = 401 ∨ resp.status = 403) →
      _handle_auth_failure cfg fetch send cache now cacheKey resp = ⟨resp, 0, [], cache⟩) ∧
    (getHeader resp.request retriedHeader = some "true" →
      _handle_auth_failure cfg fetch send cache now cacheKey resp = ⟨resp, 0, [], cache⟩) ∧
    ((_handle_auth_failure cfg fetch send cache now cacheKey resp).fetchCalls ≠ 0 →
      (resp.status = 401 ∨ resp.status = 403) ∧
        getHeader resp.request retriedHeader ≠ some "true") ∧
    (_handle_auth_failure cfg fetch send cache now cacheKey resp).resends.length ≤ 1 := by
  refine ⟨?_, ?_, ?_, ?_⟩
  · intro h
    rw [_handle_auth_failure, if_neg h]
  · intro h
    rw [_handle_auth_failure]
    by_cases hs : resp.status = 401 ∨ resp.status = 403
    · rw [if_pos hs, if_pos h]
    · rw [if_neg hs]
  · intro h
    by_cases hs : resp.status = 401 ∨ resp.status = 403
    · refine ⟨hs, ?_⟩
      intro hm
      rw [_handle_auth_failure, if_pos hs, if_pos hm] at h
      exact h rfl
    · rw [_handle_auth_failure, if_neg hs] at h
      exact absurd rfl h
  · rw [_handle_auth_failure]
    by_cases hs : resp.status = 401 ∨ resp.status = 403
    · rw [if_pos hs]
      by_cases hm : getHeader resp.request retriedHeader = some "true"
      · rw [if_pos hm]
        exact Nat.zero_le 1
      · rw [if_neg hm]
        rcases _fetch_secret_cached cfg fetch (cacheDelete cache cacheKey) now with ⟨o, cache2⟩
        rcases o with _ | c
        · simp
        · rcases hca : _create_auth_inner cfg c with _ | a <;> simp [hca]
    · rw [if_neg hs]
      exact Nat.zero_le 1

/-- Concrete instantiation of `handle_auth_failure_pass_through`: a 404 and
a marked 401 pass through untouched, and the resend count is bounded. -/
theorem handle_auth_failure_pass_through_witness :
    _handle_auth_failure ⟨"test", some "test", none, "bearer", "Authorization", "k", 300⟩
      (.ok (.structured [("token", "t")])) (fun _ => ⟨200, ⟨[]⟩⟩) [] 0 "test:k"
      ⟨404, ⟨[]⟩⟩ = ⟨⟨404, ⟨[]⟩⟩, 0, [], []⟩ ∧
    _handle_auth_failure ⟨"test", some "test", none, "bearer", "Authorization", "k", 300⟩
      (.ok (.structured [("token", "t")])) (fun _ => ⟨200, ⟨[]⟩⟩) [] 0 "test:k"
      ⟨401, ⟨[(retriedHeader, "true")]⟩⟩ =
        ⟨⟨401, ⟨[(retriedHeader, "true")]⟩⟩, 0, [], []⟩ := by
  obtain ⟨h1, _, _, _⟩ := handle_auth_failure_pass_through
    ⟨"test", some "test", none, "bearer", "Authorization", "k", 300⟩
    (.ok (.structured [("token", "t")])) (fun _ => ⟨200, ⟨[]⟩⟩) [] 0 "test:k"
    ⟨404, ⟨[]⟩⟩
  obtain ⟨_, h2, _, _⟩ := handle_auth_failure_pass_through
    ⟨"test", some "test", none, "bearer", "Authorization", "k", 300⟩
    (.ok (.structured [("token", "t")])) (fun _ => ⟨200, ⟨[]⟩⟩) [] 0 "test:k"
    ⟨401, ⟨[(retriedHeader, "true")]⟩⟩
  exact ⟨h1 (by decide), h2 (by decide)⟩

/-- C3: on a 401/403 response without the retry marker the handler evicts
the cache entry for its key and performs exactly one re-fetch through the
provider; if a credential and authenticator are obtained, the fresh
authenticator is applied to a copy of the original request carrying
`X-MLFSA-Retried: true`, that copy is resent on the originating session and
the resend's response is returned; if the re-fetch yields no credential
(including any refresh exception, folded into the fetch outcome), the
original response is returned unchanged. -/
theorem handle_auth_failure_refresh (cfg : ProviderConfig)
    (fetch : Except String RawSecret) (send : HttpRequest → HttpResponse)
    (cache : TTLCache RawSecret) (now : ℚ) (cacheKey : String) (resp : HttpResponse)
    (hs : resp.status = 401 ∨ resp.status = 403)
    (hm : getHeader resp.request retriedHeader ≠ some "true") :
    (_handle_auth_failure cfg fetch send cache now cacheKey resp).fetchCalls = 1 ∧
    (∀ c a, (_fetch_secret_cached cfg fetch (cacheDelete cache cacheKey) now).1 = some c →
      _create_auth_inner cfg c = some a →
      _handle_auth_failure cfg fetch send cache now cacheKey resp =
        ⟨send (applyAuth a (setHeader resp.request retriedHeader "true")), 1,
         [applyAuth a (setHeader resp.request retriedHeader "true")],
         (_fetch_secret_cached cfg fetch (cacheDelete cache cacheKey) now).2⟩) ∧
    ((_fetch_secret_cached cfg fetch (cacheDelete cache cacheKey) now).1 = none →
      _handle_auth_failure cfg fetch send cache now cacheKey resp =
        ⟨resp, 1, [],
         (_fetch_secret_cached cfg fetch (cacheDelete cache cacheKey) now).2⟩) := by
  rcases hf : _fetch_secret_cached cfg fetch (cacheDelete cache cacheKey) now with ⟨o, cache2⟩
  have hunf : _handle_auth_failure cfg fetch send cache now cacheKey resp =
      match (o, cache2) with
      | (none, cache2) => ⟨resp, 1, [], cache2⟩
      | (some c, cache2) =>
        match _create_auth_inner cfg c with
        | none => ⟨resp, 1, [], cache2⟩
        | some freshAuth =>
          let retryReq := applyAuth freshAuth (setHeader resp.request retriedHeader "true")
          ⟨send retryReq, 1, [retryReq], cache2⟩ := by
    rw [_handle_auth_failure, if_pos hs, if_neg hm, hf]
  refine ⟨?_, ?_, ?_⟩
  · rw [hunf]
    rcases o with _ | c
    · rfl
    · rcases hinner : _create_auth_inner cfg c with _ | a <;> simp [hinner]
  · intro c a ho hinner
    simp only at ho
    subst ho
    rw [hunf]
    simp [hinner]
  · intro ho
    simp only at ho
    subst ho
    rw [hunf]

/-- Concrete instantiation of `handle_auth_failure_refresh`: a 401 without
the marker, with a backend yielding a bearer token, is resent once with the
marker and fresh header, and a failing backend leaves the 401 as is. -/
theorem handle_auth_failure_refresh_witness :
    (_handle_auth_failure ⟨"test", some "test", none, "bearer", "Authorization", "k", 300⟩
      (.ok (.structured [("token", "new-token")])) (fun _ => ⟨200, ⟨[]⟩⟩) [] 0 "test:k"
      ⟨401, ⟨[]⟩⟩).response = ⟨200, ⟨[]⟩⟩ ∧
    (_handle_auth_failure ⟨"test", some "test", none, "bearer", "Authorization", "k", 300⟩
      (.ok (.structured [("token", "new-token")])) (fun _ => ⟨200, ⟨[]⟩⟩) [] 0 "test:k"
      ⟨401, ⟨[]⟩⟩).resends =
        [⟨[("Authorization", "Bearer new-token"), (retriedHeader, "true")]⟩] ∧
    (_handle_auth_failure ⟨"test", some "test", none, "bearer", "Authorization", "k", 300⟩
      (.error "backend down") (fun _ => ⟨200, ⟨[]⟩⟩) [] 0 "test:k"
      ⟨401, ⟨[]⟩⟩).response = ⟨401, ⟨[]⟩⟩ ∧
    (_handle_auth_failure ⟨"test", some "test", none, "bearer", "Authorization", "k", 300⟩
      (.error "backend down") (fun _ => ⟨200, ⟨[]⟩⟩) [] 0 "test:k"
      ⟨401, ⟨[]⟩⟩).resends = [] := by
  obtain ⟨_, hsome, _⟩ := handle_auth_failure_refresh
    ⟨"test", some "test", none, "bearer", "Authorization", "k", 300⟩
    (.ok (.structured [("token", "new-token")])) (fun _ => ⟨200, ⟨[]⟩⟩) [] 0 "test:k"
    ⟨401, ⟨[]⟩⟩ (Or.inl rfl) (by decide)
  obtain ⟨_, _, hnone⟩ := handle_auth_failure_refresh
    ⟨"test", some "test", none, "bearer", "Authorization", "k", 300⟩
    (.error "backend down") (fun _ => ⟨200, ⟨[]⟩⟩) [] 0 "test:k"
    ⟨401, ⟨[]⟩⟩ (Or.inl rfl) (by decide)
  have h1 := hsome (.bearer "new-token") (.bearerAuth "new-token" "Authorization")
    (by decide) (by decide)
  have h2 := hnone (by decide)
  refine ⟨?_, ?_, ?_, ?_⟩
  · rw [h1]
  · rw [h1]
    decide
  · rw [h2]
  · rw [h2]

/-! ## TTL validation (`mlflow_secrets_auth.utils.validate_ttl`) -/

/-- Modelled from the spec (the function appears only in its unit tests):
`validate_ttl` returns the default when the value is absent or its integer
conversion is non-positive, and otherwise clamps the integer into the
`minTtl`-to-`maxTtl` band; the value is taken already integer-converted
(Python's `int(...)` truncation of numeric inputs), and the function is
total, so it never raises for numeric inputs. -/
def validate_ttl (value : Option ℤ) (dflt minTtl maxTtl : ℤ) : ℤ :=
  match value with
  | none => dflt
  | some v => if v ≤ 0 then dflt else max minTtl (min maxTtl v)

/-- C10: `validate_ttl` returns the default for `none` and for any
non-positive integer value; a positive value is clamped into the
`minTtl`-to-`maxTtl` band, coming back unchanged inside the band, raised to
`minTtl` below it and lowered to `maxTtl` above it. -/
theorem validate_ttl_spec (v dflt minTtl maxTtl : ℤ) (hband : minTtl ≤ maxTtl) :
    validate_ttl none dflt minTtl maxTtl = dflt ∧
    (v ≤ 0 → validate_ttl (some v) dflt minTtl maxTtl = dflt) ∧
    (0 < v → validate_ttl (some v) dflt minTtl maxTtl = max minTtl (min maxTtl v)) ∧
    (0 < v → minTtl ≤ v → v ≤ maxTtl →
      validate_ttl (some v) dflt minTtl maxTtl = v) ∧
    (0 < v → v < minTtl → validate_ttl (some v) dflt minTtl maxTtl = minTtl) ∧
    (0 < v → maxTtl < v → validate_ttl (some v) dflt minTtl maxTtl = maxTtl) := by
  refine ⟨rfl, ?_, ?_, ?_, ?_, ?_⟩
  · intro h
    simp [validate_ttl, h]
  · intro h
    simp [validate_ttl, not_le.mpr h]
  · intro h hlo hhi
    simp only [validate_ttl, if_neg (not_le.mpr h)]
    rw [min_eq_right hhi, max_eq_right hlo]
  · intro h hlt
    simp only [validate_ttl, if_neg (not_le.mpr h)]
    rw [min_eq_right (le_of_lt (lt_of_lt_of_le hlt hband)), max_eq_left (le_of_lt hlt)]
  · intro h hgt
    simp only [validate_ttl, if_neg (not_le.mpr h)]
    rw [min_eq_left (le_of_lt hgt), max_eq_right hband]

/-- Concrete instantiation of `validate_ttl_spec` on the unit-test vectors
(default 300, band 1 to 86400, and the explicit band cases). -/
theorem validate_ttl_spec_witness :
    validate_ttl none 300 1 86400 = 300 ∧
    validate_ttl (some 0) 300 1 86400 = 300 ∧
    validate_ttl (some (-10)) 300 1 86400 = 300 ∧
    validate_ttl (some 600) 300 1 86400 = 600 ∧
    validate_ttl (some 1) 300 5 86400 = 5 ∧
    validate_ttl (some 5000) 300 1 3600 = 3600 := by
  obtain ⟨w1, w2, _, _, _, _⟩ := validate_ttl_spec 0 300 1 86400 (by norm_num)
  obtain ⟨_, w3, _, _, _, _⟩ := validate_ttl_spec (-10) 300 1 86400 (by norm_num)
  obtain ⟨_, _, _, w4, _, _⟩ := validate_ttl_spec 600 300 1 86400 (by norm_num)
  obtain ⟨_, _, _, _, w5, _⟩ := validate_ttl_spec 1 300 5 86400 (by norm_num)
  obtain ⟨_, _, _, _, _, w6⟩ := validate_ttl_spec 5000 300 1 3600 (by norm_num)
  exact ⟨w1, w2 (by norm_num), w3 (by norm_num),
    w4 (by norm_num) (by norm_num) (by norm_num),
    w5 (by norm_num) (by norm_num), w6 (by norm_num) (by norm_num)⟩

end MlflowSecretsAuth
